import Mathlib

/-!
Verification of the settlement validator `tools/migration/recalculate-compare.py`.

The validator is embedded shallowly: timestamps are the `String`s the script
manipulates (compared lexicographically by code point, as Python compares
`str`), monetary and energy amounts are `Rat` (the script uses Python floats;
tolerance comparisons are embedded as exact rational comparisons), dictionaries
are association lists with last-write-wins lookup (`dget`), and each labelled
section of `main`'s per-settlement loop becomes a function.
-/

/-! ## Python string primitives -/

/-- Strict lexicographic comparison of char lists by code point.
Embeds Python's `<` on `str` (Python compares strings by code points). -/
def lexLt : List Char → List Char → Bool
  | [], [] => false
  | [], _ :: _ => true
  | _ :: _, [] => false
  | a :: s, b :: t =>
    if a.toNat < b.toNat then true
    else if b.toNat < a.toNat then false
    else lexLt s t

/-- Python `a < b` on strings. -/
def tsLt (a b : String) : Bool := lexLt a.data b.data

/-- Python `a <= b` on strings (total order: `a <= b` iff `not (b < a)`). -/
def tsLe (a b : String) : Bool := ! lexLt b.data a.data

/-- One pass of Python `str.replace(pat, repl)` (all non-overlapping
occurrences, leftmost first), with explicit fuel; `fuel = s.length` suffices
because every step consumes at least one character of `s`. -/
def replaceAllAux : Nat → List Char → List Char → List Char → List Char
  | 0, _, _, s => s
  | _, _, _, [] => []
  | n+1, pat, repl, c :: rest =>
    if pat.isPrefixOf (c :: rest) then
      repl ++ replaceAllAux n pat repl (List.drop pat.length (c :: rest))
    else
      c :: replaceAllAux n pat repl rest

/-- Python `s.replace(pat, repl)` for a non-empty pattern. -/
def replaceAll (pat repl s : List Char) : List Char :=
  replaceAllAux s.length pat repl s

/-- `normTs` (script lines 20-22): `ts.replace("+00:00", "").replace("Z", "")`. -/
def normTs (ts : String) : String :=
  ⟨replaceAll "Z".data [] (replaceAll "+00:00".data [] ts.data)⟩

/-! ## ISO timestamp parsing (`parse_ts`, script lines 25-28)

`parse_ts` calls `datetime.fromisoformat(ts.replace("Z", "+00:00"))`.  We
embed the fragment of `fromisoformat` exercised by the cache data:
`YYYY-MM-DDTHH:MM:SS` followed by nothing, `Z`, or an explicit `±HH:MM`
offset, with field range validation.  The parsed value keeps the wall-clock
fields and the offset (as a Python `datetime` does); `utcSeconds` is the
denoted UTC instant, used for `datetime` subtraction (day counts). -/

/-- A parsed ISO-8601 timestamp: wall-clock fields plus UTC offset. -/
structure ParsedTs where
  year : Nat
  month : Nat
  day : Nat
  hour : Nat
  minute : Nat
  second : Nat
  offsetMinutes : Int
deriving DecidableEq

/-- Read one ASCII digit. -/
def readDigit (c : Char) : Option Nat :=
  if 48 ≤ c.toNat ∧ c.toNat ≤ 57 then some (c.toNat - 48) else none

/-- Read a two-digit number. -/
def num2 (a b : Char) : Option Nat := do
  let x ← readDigit a
  let y ← readDigit b
  pure (10 * x + y)

/-- Read a four-digit number. -/
def num4 (a b c d : Char) : Option Nat := do
  let x ← num2 a b
  let y ← num2 c d
  pure (100 * x + y)

/-- Gregorian leap year. -/
def isLeap (y : Nat) : Bool := (y % 4 = 0 ∧ y % 100 ≠ 0) ∨ y % 400 = 0

/-- Days in a month of the proleptic Gregorian calendar. -/
def daysInMonth (y m : Nat) : Nat :=
  if m = 2 then (if isLeap y then 29 else 28)
  else if m = 4 ∨ m = 6 ∨ m = 9 ∨ m = 11 then 30
  else 31

/-- Parse the trailing UTC-offset part: empty (naive, treated as UTC 0),
or `±HH:MM`. -/
def parseOffset : List Char → Option Int
  | [] => some 0
  | '+' :: a :: b :: ':' :: c :: d :: [] => do
    let hh ← num2 a b
    let mm ← num2 c d
    if hh ≤ 23 ∧ mm ≤ 59 then some ((hh : Int) * 60 + mm) else none
  | '-' :: a :: b :: ':' :: c :: d :: [] => do
    let hh ← num2 a b
    let mm ← num2 c d
    if hh ≤ 23 ∧ mm ≤ 59 then some (-((hh : Int) * 60 + mm)) else none
  | _ => none

/-- Parse `YYYY-MM-DDTHH:MM:SS[offset]` with range checks, as
`datetime.fromisoformat` accepts. -/
def parseCore (s : List Char) : Option ParsedTs :=
  match s with
  | y1 :: y2 :: y3 :: y4 :: '-' :: m1 :: m2 :: '-' :: d1 :: d2 :: 'T' ::
      h1 :: h2 :: ':' :: i1 :: i2 :: ':' :: s1 :: s2 :: rest => do
    let y ← num4 y1 y2 y3 y4
    let mo ← num2 m1 m2
    let d ← num2 d1 d2
    let h ← num2 h1 h2
    let mi ← num2 i1 i2
    let se ← num2 s1 s2
    let off ← parseOffset rest
    if 1 ≤ mo ∧ mo ≤ 12 ∧ 1 ≤ d ∧ d ≤ daysInMonth y mo ∧ h ≤ 23 ∧ mi ≤ 59 ∧ se ≤ 59 then
      some ⟨y, mo, d, h, mi, se, off⟩
    else none
  | _ => none

/-- `parse_ts` (script lines 25-28): replace `Z` by `+00:00`, then parse. -/
def parse_ts (ts : String) : Option ParsedTs :=
  parseCore (replaceAll "Z".data "+00:00".data ts.data)

/-- Days since 1970-01-01 of a proleptic Gregorian date
(Hinnant's `days_from_civil`, with truncating `Int` division as in C++). -/
def daysFromCivil (y m d : Int) : Int :=
  let y' := if m ≤ 2 then y - 1 else y
  let era := (if 0 ≤ y' then y' else y' - 399) / 400
  let yoe := y' - era * 400
  let mp := (m + 9) % 12
  let doy := (153 * mp + 2) / 5 + d - 1
  let doe := yoe * 365 + yoe / 4 - yoe / 100 + doy
  era * 146097 + doe - 719468

/-- The UTC instant a parsed timestamp denotes, in seconds since the epoch. -/
def utcSeconds (p : ParsedTs) : Int :=
  daysFromCivil p.year p.month p.day * 86400
    + p.hour * 3600 + p.minute * 60 + p.second - p.offsetMinutes * 60

/-! ## Stable sort (Python `sorted`)

Python's `sorted` is a stable sort.  We embed it as insertion sort that
inserts each element after all elements already placed whose key is `≤` its
key — the unique stable sort for the given (total, transitive) comparator. -/

/-- Insert `e` after every already-placed element `f` with `le f e`. -/
def stableInsert {α : Type} (le : α → α → Bool) (e : α) : List α → List α
  | [] => [e]
  | f :: rest => if le f e then f :: stableInsert le e rest else e :: f :: rest

/-- Stable sort by the comparator `le` (Python `sorted`). -/
def stableSort {α : Type} (le : α → α → Bool) (l : List α) : List α :=
  l.foldl (fun acc e => stableInsert le e acc) []

/-! ## Data model (the cache documents the script reads) -/

/-- One entry of a tariff line's `hourlyDetail`. -/
structure HourlyDetail where
  timestamp : String
  kwh : Rat
  amountDkk : Rat
deriving DecidableEq

/-- One tariff line of a settlement. An absent/empty `hourlyDetail` list is
the falsy Python value `t.get("hourlyDetail")` tests. -/
structure TariffLine where
  partyChargeTypeId : String
  amountDkk : Rat
  isSubscription : Bool
  hourlyDetail : List HourlyDetail
deriving DecidableEq

/-- One entry of a product's rate schedule (`endDate` optional). -/
structure RateEntry where
  startDate : String
  endDate : Option String
  rateDkkPerKwh : Rat
deriving DecidableEq

/-- A product: name, pricing model tag, rate schedule. -/
structure Product where
  name : String
  pricingModel : String
  rates : List RateEntry
deriving DecidableEq

/-- A product period (source key `end` is `endTs` here; `end` is reserved). -/
structure ProductPeriod where
  start : String
  endTs : Option String
  productName : String
deriving DecidableEq

/-- One entry of the spot price cache (`spotPriceDkk` may be JSON null). -/
structure SpotEntry where
  hourUtc : String
  spotPriceDkk : Option Rat
deriving DecidableEq

/-- A settlement. -/
structure Settlement where
  periodStart : String
  periodEnd : String
  totalEnergyKwh : Rat
  marginAmountDkk : Rat
  tariffLines : List TariffLine
deriving DecidableEq

/-- Python dict lookup on an association list built by repeated assignment:
the LAST binding of a key wins. -/
def dget {α : Type} : List (String × α) → String → Option α
  | [], _ => none
  | q :: rest, k =>
    match dget rest k with
    | some v => some v
    | none => if q.1 = k then some q.2 else none

/-- The read-only lookups `main` builds before validating (script lines
43-76).  `prod_periods` is stored sorted by `start`, as built on line 61;
the claims quantify over arbitrary contents. -/
structure Env where
  spot_lookup : List (String × Rat)
  obs_lookup : List (String × Rat)
  products : List (String × Product)
  prod_periods : List ProductPeriod
  addon_names : List String
  sub_prices : List (String × List (String × Rat))

/-- Spot price index (script lines 46-49): entries with a null
`spotPriceDkk` are skipped; prices divided by 1000 (DKK per MWh → per kWh),
keyed by normalized hour. -/
def buildSpotLookup (prices : List SpotEntry) : List (String × Rat) :=
  prices.filterMap (fun q =>
    match q.spotPriceDkk with
    | some v => some (normTs q.hourUtc, v / 1000)
    | none => none)

/-- Comparator on `(timestamp, price)` pairs: Python tuple `<=`. -/
def pairLe (a b : String × Rat) : Bool :=
  tsLt a.1 b.1 || (a.1 == b.1 && decide (a.2 ≤ b.2))

/-- Subscription price points of one charge (script line 75): normalize the
timestamps and sort the pairs (Python `sorted` on tuples). -/
def sub_points_of (points : List (String × Rat)) : List (String × Rat) :=
  stableSort pairLe (points.map (fun q => (normTs q.1, q.2)))

/-! ## Helper functions of `main` (script lines 85-143) -/

/-- `find_primary_product` (lines 87-95): scan the product periods in
reverse; the first (i.e. latest) one active at `period_start` whose name is
not an addon name decides; its product is looked up (possibly absent). -/
def find_primary_product (env : Env) (period_start : String) : Option Product :=
  let ps := normTs period_start
  (env.prod_periods.reverse.find? (fun pp =>
      tsLe (normTs pp.start) ps && tsLt ps (normTs (pp.endTs.getD "2099")) &&
      !(env.addon_names.contains pp.productName))).bind
    (fun pp => dget env.products pp.productName)

/-- `find_addons` (lines 97-108): all product periods active at
`period_start` whose name is an addon name and whose product exists. -/
def find_addons (env : Env) (period_start : String) : List Product :=
  let ps := normTs period_start
  env.prod_periods.filterMap (fun pp =>
    if tsLe (normTs pp.start) ps && tsLt ps (normTs (pp.endTs.getD "2099")) &&
        env.addon_names.contains pp.productName then
      dget env.products pp.productName
    else none)

/-- Rate schedule comparator: Python `sorted(..., key=lambda x: x["startDate"])`. -/
def rateLe (a b : RateEntry) : Bool := tsLe a.startDate b.startDate

/-- The sorted rate schedule (line 120). -/
def sortRates (l : List RateEntry) : List RateEntry := stableSort rateLe l

/-- `margin_rate_at` (lines 110-131): scan the schedule sorted by start;
a ranged entry applies on `startDate <= ps < endDate`, an open-ended entry
applies on `startDate < ps` (strict); each applicable entry overwrites the
answer; default 0. -/
def margin_rate_at (product : Product) (period_start : String) : Rat :=
  let ps := normTs period_start
  (sortRates product.rates).foldl
    (fun rate r =>
      match r.endDate with
      | some e => if tsLe (normTs r.startDate) ps && tsLt ps (normTs e) then r.rateDkkPerKwh else rate
      | none => if tsLt (normTs r.startDate) ps then r.rateDkkPerKwh else rate)
    0

/-- The scan of `sub_price_at` (lines 137-143): walk the sorted points; take
each value whose instant is `<= ps`; `break` on the first one beyond. -/
def subLoop (ps : String) (v : Rat) : List (String × Rat) → Rat
  | [] => v
  | q :: rest => if tsLe q.1 ps then subLoop ps q.2 rest else v

/-- `sub_price_at` (lines 133-143) over the stored sorted points of one
charge: last value at or before `period_start`, else 0. -/
def sub_price_at (pts : List (String × Rat)) (period_start : String) : Rat :=
  subLoop (normTs period_start) 0 pts

/-! ## The per-settlement validation (script lines 148-323) -/

/-- The observations of the period (line 160):
`{t: k for t, k in obs_lookup.items() if ps <= t < pe}`. -/
def periodObs (env : Env) (s : Settlement) : List (String × Rat) :=
  env.obs_lookup.filter (fun q =>
    tsLe (normTs s.periodStart) q.1 && tsLt q.1 (normTs s.periodEnd))

/-- `has_obs` (line 161). -/
def hasObs (env : Env) (s : Settlement) : Bool := !(periodObs env s).isEmpty

/-- The primary product of the settlement (line 164). -/
def primaryProd (env : Env) (s : Settlement) : Option Product :=
  find_primary_product env s.periodStart

/-- The pricing model tag (line 166): `prod["pricingModel"] if prod else "Unknown"`. -/
def modelOf (env : Env) (s : Settlement) : String :=
  match primaryProd env s with
  | some p => p.pricingModel
  | none => "Unknown"

/-- A recorded Tier-1 violation (line 189): charge id, line total, hourly
sum, delta. -/
structure ConsErr where
  cid : String
  total : Rat
  hdSum : Rat
  delta : Rat
deriving DecidableEq

/-- Sum of a line's hourly detail amounts (line 185). -/
def hdSumOf (t : TariffLine) : Rat := (t.hourlyDetail.map (·.amountDkk)).sum

/-- One step of the Tier-1 loop (lines 184-191). -/
def tier1Step (acc : Bool × List ConsErr) (t : TariffLine) : Bool × List ConsErr :=
  if t.hourlyDetail ≠ [] then
    let hd_sum := hdSumOf t
    let diff := |t.amountDkk - hd_sum|
    if diff > 1/100 then
      (false, acc.2 ++ [⟨t.partyChargeTypeId, t.amountDkk, hd_sum, diff⟩])
    else acc
  else acc

/-- Tier-1 internal consistency (lines 169-191): `(consistency_ok,
consistency_errors)`.  Every tariff line with hourly detail is checked;
checking continues past violations. -/
def tier1 (lines : List TariffLine) : Bool × List ConsErr :=
  lines.foldl tier1Step (true, [])

/-- A recorded Tier-2 example (lines 210-213). -/
structure ObsErr where
  ts : String
  hd : Rat
  obs : Rat
deriving DecidableEq

/-- Tier-2 counters and examples. -/
structure T2 where
  matched : Nat
  mismatched : Nat
  missing : Nat
  errors : List ObsErr
deriving DecidableEq

/-- One step of the Tier-2 loop (lines 203-215). -/
def tier2Step (pobs : List (String × Rat)) (acc : T2) (h : HourlyDetail) : T2 :=
  let hts := normTs h.timestamp
  match dget pobs hts with
  | some obsKwh =>
    if |h.kwh - obsKwh| < 5/1000 then
      { acc with matched := acc.matched + 1 }
    else
      { acc with
        mismatched := acc.mismatched + 1
        errors := (if acc.errors.length < 3 then acc.errors ++ [⟨hts, h.kwh, obsKwh⟩]
                   else acc.errors) }
  | none => { acc with missing := acc.missing + 1 }

/-- Tier-2 observation matching (lines 193-216): only when observations
exist; only the first non-subscription tariff line with hourly detail is
scanned (the `break` on line 216). -/
def tier2 (env : Env) (s : Settlement) : T2 :=
  if hasObs env s then
    match s.tariffLines.find? (fun t => !t.hourlyDetail.isEmpty && !t.isSubscription) with
    | some t => t.hourlyDetail.foldl (tier2Step (periodObs env s)) ⟨0, 0, 0, []⟩
    | none => ⟨0, 0, 0, []⟩
  else ⟨0, 0, 0, []⟩

/-- One step of the spot scan (lines 227-233): add `kwh * spot_price` when
the hour has a spot price, else count it as missing. -/
def spotStep (lookup : List (String × Rat)) (acc : Rat × Nat) (q : String × Rat) : Rat × Nat :=
  match dget lookup q.1 with
  | some sp => (acc.1 + q.2 * sp, acc.2)
  | none => (acc.1, acc.2 + 1)

/-- The spot scan (lines 224-233): total of `kwh * spot_price` over the
period's observations, and the count of hours with no spot price. -/
def spotScan (env : Env) (s : Settlement) : Rat × Nat :=
  (periodObs env s).foldl (spotStep env.spot_lookup) (0, 0)

/-- Tier-3a (lines 220-234): the spot recomputation runs only when
observations exist and the model is `SpotAddon`. -/
def spotCalc (env : Env) (s : Settlement) : Option (Rat × Nat) :=
  if hasObs env s && (modelOf env s == "SpotAddon") then some (spotScan env s) else none

/-- `recalc_spot` (line 234, `None` otherwise). -/
def recalcSpot (env : Env) (s : Settlement) : Option Rat :=
  (spotCalc env s).map (·.1)

/-- `spot_missing` as reported (line 313): only when spot was recomputed. -/
def spotMissingR (env : Env) (s : Settlement) : Option Nat :=
  (spotCalc env s).map (·.2)

/-- Tier-3b (lines 236-245): margin recomputation.  With observations the
observed energy is used, otherwise the settlement's own `totalEnergyKwh`. -/
def recalcMargin (env : Env) (s : Settlement) : Option Rat :=
  match primaryProd env s with
  | some p =>
    let mr := margin_rate_at p s.periodStart
    some (if hasObs env s then ((periodObs env s).map (·.2)).sum * mr
          else s.totalEnergyKwh * mr)
  | none => none

/-- `margin_diff` (line 246). -/
def marginDiff (env : Env) (s : Settlement) : Option Rat :=
  (recalcMargin env s).map (· - s.marginAmountDkk)

/-- A recorded addon difference (line 264). -/
structure AddonErr where
  name : String
  calcAmt : Rat
  ref : Rat
  delta : Rat
deriving DecidableEq

/-- Tier-3c (lines 248-264): per active addon with a matching `PRODUCT:`
tariff line, flag when `|calc - ref| > 0.50`. -/
def addonDiffs (env : Env) (s : Settlement) : List AddonErr :=
  (find_addons env s.periodStart).filterMap (fun addon =>
    let addon_rate := margin_rate_at addon s.periodStart
    match s.tariffLines.find? (fun t => t.partyChargeTypeId == "PRODUCT:" ++ addon.name) with
    | some ref_line =>
      let calc_amt := if hasObs env s then ((periodObs env s).map (·.2)).sum * addon_rate
                      else s.totalEnergyKwh * addon_rate
      let d := calc_amt - ref_line.amountDkk
      if |d| > 1/2 then some ⟨addon.name, calc_amt, ref_line.amountDkk, d⟩ else none
    | none => none)

/-- A recorded subscription difference (line 287). -/
structure SubErr where
  cid : String
  amt : Rat
  monthly : Rat
deriving DecidableEq

/-- The period's day count (lines 273-275).  A parse failure would abort the
Python run with an exception; it is modelled by a default never exercised. -/
def daysOf (s : Settlement) : Rat :=
  ((((parse_ts s.periodEnd).map utcSeconds).getD 0
    - ((parse_ts s.periodStart).map utcSeconds).getD 0 : Int) : Rat) / 86400

/-- Tier-3d (lines 266-287): subscription verification.  A non-`PRODUCT:`
subscription line is flagged when its stored amount is within 15% of neither
the monthly rate nor the rate prorated by `days/30`. -/
def subDiffs (env : Env) (s : Settlement) : List SubErr :=
  s.tariffLines.filterMap (fun t =>
    if t.isSubscription && !("PRODUCT:".isPrefixOf t.partyChargeTypeId) then
      let monthly_rate := sub_price_at ((dget env.sub_prices t.partyChargeTypeId).getD []) s.periodStart
      let days := daysOf s
      let ref_amt := t.amountDkk
      if monthly_rate > 0 ∧ |ref_amt| > 1/100 then
        let rto := ref_amt / monthly_rate
        if |rto - 1| > 15/100 ∧ |rto - days / 30| > 15/100 then
          some ⟨t.partyChargeTypeId, ref_amt, monthly_rate⟩
        else none
      else none
    else none)

/-- The issue set (lines 289-298).  The recorded tags are the prefixes of
the formatted issue strings; `sub_diffs` is NOT consulted here. -/
def issuesOf (env : Env) (s : Settlement) : List String :=
  (if !(tier1 s.tariffLines).1 then ["consistency"] else []) ++
  (if (tier2 env s).mismatched > 2 then ["obs"] else []) ++
  (match marginDiff env s with
   | some d => if |d| > 1 then ["margin"] else []
   | none => []) ++
  (if !(addonDiffs env s).isEmpty then ["addon"] else [])

/-- `is_ok` (line 300). -/
def okOf (env : Env) (s : Settlement) : Bool := (issuesOf env s).isEmpty

/-- The reported per-settlement status (lines 317-323): the skip icon when
there are no in-period observations, else pass/fail by `is_ok`. -/
def statusOf (env : Env) (s : Settlement) : String :=
  if !(hasObs env s) then "skipped"
  else if okOf env s then "passed"
  else "failed"

/-! ## Spec-side definitions (for refinement claims)

These two follow the SPEC's words, to be compared against the functions
above; they are not translations of the source. -/

/-- Modelled from the spec: a rate schedule entry is applicable at the
(normalized) reference instant `t` iff `start <= t < end` when it has an
end, and `t > start` strictly when it is open-ended. -/
def specApplies (r : RateEntry) (t : String) : Bool :=
  match r.endDate with
  | some e => tsLe (normTs r.startDate) t && tsLt t (normTs e)
  | none => tsLt (normTs r.startDate) t

/-! ## Concrete inputs used by witnesses and counterexamples -/

def env0 : Env :=
  { spot_lookup := []
    obs_lookup := []
    products := [("P", ⟨"P", "Margin", [⟨"2020-01-01", none, 1⟩]⟩)]
    prod_periods := [⟨"2020-01-01", none, "P"⟩]
    addon_names := []
    sub_prices := [] }

def s0 : Settlement :=
  { periodStart := "2024-01-01T00:00:00Z"
    periodEnd := "2024-02-01T00:00:00Z"
    totalEnergyKwh := 100
    marginAmountDkk := 0
    tariffLines := [] }

def env1 : Env :=
  { spot_lookup := []
    obs_lookup := [("2024-01-05T00:00:00", 1)]
    products := []
    prod_periods := []
    addon_names := []
    sub_prices := [("SUB1", [("2020-01-01", 100)])] }

def s1 : Settlement :=
  { periodStart := "2024-01-01T00:00:00Z"
    periodEnd := "2024-02-01T00:00:00Z"
    totalEnergyKwh := 1
    marginAmountDkk := 0
    tariffLines :=
      [⟨"TAR1", 1, false, [⟨"2024-01-05T00:00:00Z", 1, 1⟩]⟩,
       ⟨"SUB1", 50, true, []⟩] }

def lines7 : List TariffLine :=
  [⟨"DIST1", 2, false, [⟨"2024-01-01T00:00:00Z", 1, 1⟩]⟩,
   ⟨"DIST2", 1, false, [⟨"2024-01-01T00:00:00Z", 1, 1⟩]⟩]

def prices9 : List SpotEntry :=
  [⟨"2024-01-01T05:00:00Z", some 500⟩, ⟨"2024-01-01T06:00:00Z", none⟩]

def env9 : Env :=
  { spot_lookup := buildSpotLookup prices9
    obs_lookup := [("2024-01-01T05:00:00", 2), ("2024-01-01T07:00:00", 3)]
    products := [("P", ⟨"P", "SpotAddon", []⟩)]
    prod_periods := [⟨"2020-01-01", none, "P"⟩]
    addon_names := []
    sub_prices := [] }

def s9 : Settlement :=
  { periodStart := "2024-01-01T00:00:00Z"
    periodEnd := "2024-01-02T00:00:00Z"
    totalEnergyKwh := 5
    marginAmountDkk := 0
    tariffLines := [] }

def prodAB : Product := ⟨"P", "Margin", [⟨"2024-01-01", none, 1⟩, ⟨"2024-01-01", none, 2⟩]⟩

def prodBA : Product := ⟨"P", "Margin", [⟨"2024-01-01", none, 2⟩, ⟨"2024-01-01", none, 1⟩]⟩

def prodD1 : Product := ⟨"P", "M", [⟨"2024-01-01", none, 1⟩, ⟨"2023-01-01", none, 3⟩]⟩

def prodD2 : Product := ⟨"P", "M", [⟨"2023-01-01", none, 3⟩, ⟨"2024-01-01", none, 1⟩]⟩

def envC6 : Env := ⟨[], [], [], [], [], [("S", sub_points_of [("2020-01-01", 100)])]⟩

/-! ## Order lemmas for the code-point comparison -/

theorem char_toNat_inj {a b : Char} (h : a.toNat = b.toNat) : a = b := by
  have := congrArg Char.ofNat h
  rwa [Char.ofNat_toNat, Char.ofNat_toNat] at this

theorem lexLt_nil_right (l : List Char) : lexLt l [] = false := by
  cases l <;> rfl

theorem lexLt_irrefl (l : List Char) : lexLt l l = false := by
  induction l with
  | nil => rfl
  | cons c t ih => simp [lexLt, ih]

theorem lexLt_asymm : ∀ {a b : List Char}, lexLt a b = true → lexLt b a = false
  | [], [], h => by simp [lexLt] at h
  | [], _ :: _, _ => by simp [lexLt_nil_right]
  | _ :: _, [], h => by simp [lexLt_nil_right] at h
  | a :: s, b :: t, h => by
    simp only [lexLt] at h ⊢
    by_cases hx : a.toNat < b.toNat
    · simp [hx, show ¬ b.toNat < a.toNat by omega]
    · by_cases hy : b.toNat < a.toNat
      · simp [hx, hy] at h
      · simp only [hx, hy, if_false] at h ⊢
        simp [lexLt_asymm h]

theorem lexLt_trans : ∀ {a b c : List Char}, lexLt a b = true → lexLt b c = true →
    lexLt a c = true
  | _, b, [], _, h2 => by rw [lexLt_nil_right] at h2; cases h2
  | [], _ :: _, _ :: _, _, _ => by simp [lexLt]
  | _ :: _, [], _, h1, _ => by rw [lexLt_nil_right] at h1; cases h1
  | a :: s, b :: t, c :: u, h1, h2 => by
    simp only [lexLt] at h1 h2 ⊢
    by_cases hba : b.toNat < a.toNat
    · simp [show ¬ a.toNat < b.toNat by omega, hba] at h1
    by_cases hcb : c.toNat < b.toNat
    · simp [show ¬ b.toNat < c.toNat by omega, hcb] at h2
    by_cases hab : a.toNat < b.toNat
    · by_cases hbc : b.toNat < c.toNat
      · simp [show a.toNat < c.toNat by omega]
      · simp [show a.toNat < c.toNat by omega]
    · by_cases hbc : b.toNat < c.toNat
      · simp [show a.toNat < c.toNat by omega]
      · simp only [hab, hba, if_false] at h1
        simp only [hbc, hcb, if_false] at h2
        simp only [show ¬ a.toNat < c.toNat by omega, show ¬ c.toNat < a.toNat by omega,
          if_false]
        exact lexLt_trans h1 h2

theorem eq_of_lexLt_false : ∀ {a b : List Char}, lexLt a b = false → lexLt b a = false →
    a = b
  | [], [], _, _ => rfl
  | [], _ :: _, h1, _ => by simp [lexLt] at h1
  | _ :: _, [], _, h2 => by simp [lexLt] at h2
  | a :: s, b :: t, h1, h2 => by
    simp only [lexLt] at h1 h2
    by_cases hx : a.toNat < b.toNat
    · simp [hx] at h1
    · by_cases hy : b.toNat < a.toNat
      · simp [hx, hy] at h2
      · simp only [hx, hy, if_false] at h1 h2
        rw [char_toNat_inj (show a.toNat = b.toNat by omega), eq_of_lexLt_false h1 h2]

theorem str_ext {a b : String} (h : a.data = b.data) : a = b := by
  cases a; cases b; exact congrArg String.mk h

theorem tsLe_refl (a : String) : tsLe a a = true := by
  simp [tsLe, lexLt_irrefl]

theorem tsLe_of_not {a b : String} (h : tsLe a b = false) : tsLe b a = true := by
  simp only [tsLe, Bool.not_eq_false'] at h
  simp [tsLe, lexLt_asymm h]

theorem tsLe_trans {a b c : String} (h1 : tsLe a b = true) (h2 : tsLe b c = true) :
    tsLe a c = true := by
  simp only [tsLe, Bool.not_eq_true'] at h1 h2 ⊢
  by_cases hca : lexLt c.data a.data = true
  · by_cases hab : lexLt a.data b.data = true
    · rw [lexLt_trans hca hab] at h2; cases h2
    · rw [str_ext (eq_of_lexLt_false (by simpa using hab) h1)] at hca
      rw [hca] at h2; cases h2
  · simpa using hca

theorem ts_antisymm {a b : String} (h1 : tsLe a b = true) (h2 : tsLe b a = true) : a = b := by
  simp only [tsLe, Bool.not_eq_true'] at h1 h2
  exact str_ext (eq_of_lexLt_false h2 h1)

theorem tsLe_of_tsLt {a b : String} (h : tsLt a b = true) : tsLe a b = true := by
  simp only [tsLt] at h
  simp [tsLe, lexLt_asymm h]

theorem tsLt_of_le_of_ne {a b : String} (h : tsLe a b = true) (hne : a ≠ b) :
    tsLt a b = true := by
  simp only [tsLe, Bool.not_eq_true'] at h
  simp only [tsLt]
  by_cases hab : lexLt a.data b.data = true
  · exact hab
  · exact absurd (str_ext (eq_of_lexLt_false (by simpa using hab) h)) hne

/-! ## Stable sort lemmas -/

theorem stableInsert_perm {α : Type} (le : α → α → Bool) (e : α) :
    ∀ l : List α, List.Perm (stableInsert le e l) (e :: l)
  | [] => List.Perm.refl _
  | f :: rest => by
    simp only [stableInsert]
    split_ifs
    · exact ((stableInsert_perm le e rest).cons f).trans (List.Perm.swap e f rest)
    · exact List.Perm.refl _

theorem foldl_stableInsert_perm {α : Type} (le : α → α → Bool) :
    ∀ (l acc : List α),
      List.Perm (l.foldl (fun acc e => stableInsert le e acc) acc) (l ++ acc)
  | [], acc => by simp
  | e :: l, acc => by
    simp only [List.foldl_cons, List.cons_append]
    exact ((foldl_stableInsert_perm le l _).trans
      ((stableInsert_perm le e acc).append_left l)).trans List.perm_middle

theorem stableSort_perm {α : Type} (le : α → α → Bool) (l : List α) :
    List.Perm (stableSort le l) l := by
  simpa using foldl_stableInsert_perm le l []

theorem mem_stableSort {α : Type} (le : α → α → Bool) (l : List α) (a : α) :
    a ∈ stableSort le l ↔ a ∈ l :=
  (stableSort_perm le l).mem_iff

theorem stableInsert_pairwise {α : Type} (le : α → α → Bool)
    (htot : ∀ a b, le a b = false → le b a = true)
    (htr : ∀ a b c, le a b = true → le b c = true → le a c = true) (e : α) :
    ∀ l : List α, List.Pairwise (fun a b => le a b = true) l →
      List.Pairwise (fun a b => le a b = true) (stableInsert le e l)
  | [], _ => List.pairwise_singleton ..
  | f :: rest, h => by
    rw [List.pairwise_cons] at h
    simp only [stableInsert]
    split_ifs with hfe
    · rw [List.pairwise_cons]
      refine ⟨fun x hx => ?_, stableInsert_pairwise le htot htr e rest h.2⟩
      rcases List.mem_cons.mp ((stableInsert_perm le e rest).mem_iff.mp hx) with hxe | hxr
      · exact hxe ▸ hfe
      · exact h.1 x hxr
    · rw [List.pairwise_cons]
      refine ⟨fun x hx => ?_, List.pairwise_cons.mpr h⟩
      have hef : le e f = true := htot f e (by simpa using hfe)
      rcases List.mem_cons.mp hx with hxf | hxr
      · exact hxf ▸ hef
      · exact htr e f x hef (h.1 x hxr)

theorem stableSort_pairwise {α : Type} (le : α → α → Bool)
    (htot : ∀ a b, le a b = false → le b a = true)
    (htr : ∀ a b c, le a b = true → le b c = true → le a c = true) (l : List α) :
    List.Pairwise (fun a b => le a b = true) (stableSort le l) := by
  suffices h : ∀ (l acc : List α), List.Pairwise (fun a b => le a b = true) acc →
      List.Pairwise (fun a b => le a b = true)
        (l.foldl (fun acc e => stableInsert le e acc) acc) by
    exact h l [] (by simp)
  intro l
  induction l with
  | nil => exact fun acc h => h
  | cons e l ih =>
    intro acc h
    exact ih _ (stableInsert_pairwise le htot htr e acc h)

theorem rateLe_tot (a b : RateEntry) (h : rateLe a b = false) : rateLe b a = true :=
  tsLe_of_not h

theorem rateLe_tr (a b c : RateEntry) (h1 : rateLe a b = true) (h2 : rateLe b c = true) :
    rateLe a c = true :=
  tsLe_trans h1 h2

theorem sortRates_eq_of_perm {l₁ l₂ : List RateEntry} (hp : List.Perm l₁ l₂)
    (hnd : (l₁.map (·.startDate)).Nodup) : sortRates l₁ = sortRates l₂ := by
  have hnd₂ : (l₂.map (·.startDate)).Nodup := ((hp.map (·.startDate)).nodup_iff).mp hnd
  have hkey : ∀ {l : List RateEntry}, (l.map (·.startDate)).Nodup →
      List.Pairwise (fun a b : RateEntry => a.startDate ≠ b.startDate) (sortRates l) := by
    intro l h
    have h1 : List.Pairwise (fun a b : RateEntry => a.startDate ≠ b.startDate) l :=
      List.pairwise_map.mp h
    exact ((stableSort_perm rateLe l).pairwise_iff (fun hab => hab.symm)).mpr h1
  have hsorted : ∀ {l : List RateEntry}, (l.map (·.startDate)).Nodup →
      List.Sorted (fun a b : RateEntry => tsLt a.startDate b.startDate = true ∨ a = b)
        (sortRates l) := by
    intro l h
    have h1 := stableSort_pairwise rateLe rateLe_tot rateLe_tr l
    exact (h1.imp₂ (fun a b hle hne => Or.inl (tsLt_of_le_of_ne hle hne))) (hkey h)
  haveI : IsAntisymm RateEntry (fun a b => tsLt a.startDate b.startDate = true ∨ a = b) := by
    constructor
    rintro a b (h1 | rfl) h2
    · rcases h2 with h2 | rfl
      · simp only [tsLt] at h1 h2
        rw [lexLt_asymm h1] at h2
        cases h2
      · rfl
    · rfl
  have hperm : List.Perm (sortRates l₁) (sortRates l₂) :=
    ((stableSort_perm rateLe l₁).trans hp).trans (stableSort_perm rateLe l₂).symm
  exact List.eq_of_perm_of_sorted hperm (hsorted hnd) (hsorted hnd₂)

theorem margin_rate_at_zero (p : Product) (ps : String)
    (h : ∀ r ∈ p.rates, specApplies r (normTs ps) = false) : margin_rate_at p ps = 0 := by
  unfold margin_rate_at
  have h' : ∀ r ∈ sortRates p.rates, specApplies r (normTs ps) = false := fun r hr =>
    h r ((mem_stableSort _ _ r).mp hr)
  generalize sortRates p.rates = l at h'
  induction l with
  | nil => rfl
  | cons r t ih =>
    have hr := h' r (by simp)
    rw [List.foldl_cons]
    have hstep : (match r.endDate with
        | some e => if tsLe (normTs r.startDate) (normTs ps) && tsLt (normTs ps) (normTs e)
            then r.rateDkkPerKwh else (0:Rat)
        | none => if tsLt (normTs r.startDate) (normTs ps) then r.rateDkkPerKwh else (0:Rat)) = 0 := by
      rcases hre : r.endDate with _ | e <;> simp only [specApplies, hre] at hr <;> simp [hr]
    rw [hstep]
    exact ih (fun x hx => h' x (by simp [hx]))

theorem margin_rate_at_perm_aux (p q : Product) (ps : String) (hp : List.Perm p.rates q.rates)
    (hnd : (p.rates.map (·.startDate)).Nodup) : margin_rate_at p ps = margin_rate_at q ps := by
  unfold margin_rate_at
  rw [show sortRates p.rates = sortRates q.rates from sortRates_eq_of_perm hp hnd]

/-- Claim C4: a rate schedule entry is applicable at reference instant `t`
iff `start ≤ t < end` when it has an end instant, and `t > start` strictly
when it is open-ended: on a one-entry schedule `margin_rate_at` returns the
entry's rate exactly under `specApplies` (the spec-side condition), else 0. -/
theorem claim_C4 (nm md : String) (r : RateEntry) (ps : String) :
    margin_rate_at ⟨nm, md, [r]⟩ ps = if specApplies r (normTs ps) then r.rateDkkPerKwh else 0 := by
  obtain ⟨sd, ed, rr⟩ := r
  cases ed <;> simp [margin_rate_at, sortRates, stableSort, stableInsert, specApplies]

/-- Counterexample to C5 as stated: two open-ended entries share the same
start; swapping their input order changes the resolved rate from 2 to 1. -/
theorem claim_C5_counterexample :
    List.Perm prodAB.rates prodBA.rates
    ∧ margin_rate_at prodAB "2024-06-01T00:00:00Z" = 2
    ∧ margin_rate_at prodBA "2024-06-01T00:00:00Z" = 1
    ∧ (2 : Rat) ≠ 1 := by
  refine ⟨List.Perm.swap _ _ _, ?_, ?_, by decide⟩ <;> decide

/-- Claim C5 (amended): rate resolution is invariant under permutation of the
schedule's input order provided all start instants are distinct, and it
returns zero when no entry is applicable.  (The original claim included
schedules with duplicated start instants, where the stable sort makes the
last-listed entry win, see `claim_C5_counterexample`.) -/
theorem claim_C5 :
    (∀ (p q : Product) (ps : String), List.Perm p.rates q.rates →
      (p.rates.map (·.startDate)).Nodup → margin_rate_at p ps = margin_rate_at q ps)
    ∧ (∀ (p : Product) (ps : String), (∀ r ∈ p.rates, specApplies r (normTs ps) = false) →
      margin_rate_at p ps = 0) :=
  ⟨fun p q ps hp hnd => margin_rate_at_perm_aux p q ps hp hnd, margin_rate_at_zero⟩

/-- Witness for C5: permutation invariance on a two-entry schedule with
distinct starts, and the zero default at an instant preceding the schedule. -/
theorem claim_C5_witness :
    margin_rate_at prodD1 "2024-06-01T00:00:00Z" = margin_rate_at prodD2 "2024-06-01T00:00:00Z"
    ∧ margin_rate_at prodD1 "2020-01-01T00:00:00Z" = 0 :=
  ⟨claim_C5.1 prodD1 prodD2 _ (List.Perm.swap _ _ _) (by decide),
   claim_C5.2 prodD1 _ (by decide)⟩

theorem pairLe_tot (a b : String × Rat) (h : pairLe a b = false) : pairLe b a = true := by
  simp only [pairLe, Bool.or_eq_false_iff, Bool.and_eq_false_iff] at h
  simp only [pairLe, Bool.or_eq_true, Bool.and_eq_true, beq_iff_eq, decide_eq_true_eq]
  by_cases hba : tsLt b.1 a.1 = true
  · exact Or.inl hba
  · have heq : a.1 = b.1 := by
      simp only [tsLt] at h hba
      exact str_ext (eq_of_lexLt_false h.1 (by simpa using hba))
    right
    refine ⟨heq.symm, ?_⟩
    rcases h.2 with h2 | h2
    · rw [heq] at h2; simp at h2
    · simp only [decide_eq_false_iff_not] at h2
      exact le_of_not_le h2

theorem pairLe_tr (a b c : String × Rat) (h1 : pairLe a b = true) (h2 : pairLe b c = true) :
    pairLe a c = true := by
  simp only [pairLe, Bool.or_eq_true, Bool.and_eq_true, beq_iff_eq, decide_eq_true_eq] at h1 h2 ⊢
  rcases h1 with h1 | ⟨h1e, h1le⟩ <;> rcases h2 with h2 | ⟨h2e, h2le⟩
  · exact Or.inl (lexLt_trans h1 h2)
  · rw [← h2e]; exact Or.inl h1
  · rw [h1e]; exact Or.inl h2
  · exact Or.inr ⟨h1e.trans h2e, le_trans h1le h2le⟩

theorem pairLe_fst (a b : String × Rat) (h : pairLe a b = true) : tsLe a.1 b.1 = true := by
  simp only [pairLe, Bool.or_eq_true, Bool.and_eq_true, beq_iff_eq] at h
  rcases h with h | ⟨he, _⟩
  · exact tsLe_of_tsLt h
  · rw [he]; exact tsLe_refl _

theorem subLoop_char (ps : String) :
    ∀ (l : List (String × Rat)), List.Pairwise (fun a b => tsLe a.1 b.1 = true) l →
    ∀ (v : Rat),
      ((∀ e ∈ l, tsLe e.1 ps = false) ∧ subLoop ps v l = v)
      ∨ (∃ e ∈ l, tsLe e.1 ps = true ∧ (∀ f ∈ l, tsLe f.1 ps = true → tsLe f.1 e.1 = true)
          ∧ subLoop ps v l = e.2)
  | [], _, v => Or.inl ⟨by simp, rfl⟩
  | (t, p) :: rest, h, v => by
    rw [List.pairwise_cons] at h
    by_cases hts : tsLe t ps = true
    · rcases subLoop_char ps rest h.2 p with ⟨hall, heq⟩ | ⟨e, he, hle, hmax⟩
      · right
        refine ⟨(t, p), by simp, hts, ?_, ?_⟩
        · rintro f hf hfle
          rcases List.mem_cons.mp hf with rfl | hfr
          · exact tsLe_refl _
          · rw [hall f hfr] at hfle; cases hfle
        · simp [subLoop, hts, heq]
      · right
        refine ⟨e, List.mem_cons.mpr (Or.inr he), hle, ?_, ?_⟩
        · rintro f hf hfle
          rcases List.mem_cons.mp hf with rfl | hfr
          · exact h.1 e he
          · exact hmax.1 f hfr hfle
        · simp [subLoop, hts, hmax.2]
    · left
      have hts' : tsLe t ps = false := by simpa using hts
      refine ⟨?_, by simp [subLoop, hts']⟩
      rintro f hf
      rcases List.mem_cons.mp hf with rfl | hfr
      · exact hts'
      · by_cases hfp : tsLe f.1 ps = true
        · exact absurd (tsLe_trans (h.1 f hfr) hfp) (by simp [hts'])
        · simpa using hfp

/-- Claim C6: the subscription resolver returns the amount of an entry with
the greatest schedule instant at or before the reference instant (and never
an entry beyond it), and returns zero when no entry is at or before the
reference instant. -/
theorem claim_C6 (env : Env) (cid : String) (points : List (String × Rat)) (ps : String)
    (h : dget env.sub_prices cid = some (sub_points_of points)) :
    ((∀ q ∈ points, tsLe (normTs q.1) (normTs ps) = false)
        ∧ sub_price_at ((dget env.sub_prices cid).getD []) ps = 0)
    ∨ (∃ q ∈ points, tsLe (normTs q.1) (normTs ps) = true
        ∧ (∀ f ∈ points, tsLe (normTs f.1) (normTs ps) = true →
            tsLe (normTs f.1) (normTs q.1) = true)
        ∧ sub_price_at ((dget env.sub_prices cid).getD []) ps = q.2) := by
  rw [h, Option.getD_some, sub_price_at]
  have hsorted : List.Pairwise (fun a b : String × Rat => tsLe a.1 b.1 = true)
      (sub_points_of points) :=
    (stableSort_pairwise pairLe pairLe_tot pairLe_tr _).imp
      (fun hab => pairLe_fst _ _ hab)
  have hmem : ∀ e, e ∈ sub_points_of points ↔
      ∃ q ∈ points, (normTs q.1, q.2) = e := by
    intro e
    rw [sub_points_of, mem_stableSort, List.mem_map]
  rcases subLoop_char (normTs ps) (sub_points_of points) hsorted 0 with ⟨hall, heq⟩ |
    ⟨e, he, hle, hmax, heq⟩
  · left
    refine ⟨fun q hq => ?_, heq⟩
    exact hall (normTs q.1, q.2) ((hmem _).mpr ⟨q, hq, rfl⟩)
  · right
    rcases (hmem e).mp he with ⟨q, hq, hqe⟩
    refine ⟨q, hq, ?_, ?_, ?_⟩
    · rw [show normTs q.1 = e.1 from by rw [← hqe]]; exact hle
    · rintro f hf hfle
      have := hmax (normTs f.1, f.2) ((hmem _).mpr ⟨f, hf, rfl⟩) hfle
      rw [show e.1 = normTs q.1 from by rw [← hqe]] at this
      exact this
    · rw [heq, show e.2 = q.2 from by rw [← hqe]]

/-- Witness for C6: the characterization at a one-point schedule. -/
theorem claim_C6_witness :
    ((∀ q ∈ [(("2020-01-01" : String), (100 : Rat))],
        tsLe (normTs q.1) (normTs "2024-01-01T00:00:00Z") = false)
      ∧ sub_price_at ((dget envC6.sub_prices "S").getD []) "2024-01-01T00:00:00Z" = 0)
    ∨ (∃ q ∈ [(("2020-01-01" : String), (100 : Rat))],
        tsLe (normTs q.1) (normTs "2024-01-01T00:00:00Z") = true
        ∧ (∀ f ∈ [(("2020-01-01" : String), (100 : Rat))],
            tsLe (normTs f.1) (normTs "2024-01-01T00:00:00Z") = true →
            tsLe (normTs f.1) (normTs q.1) = true)
        ∧ sub_price_at ((dget envC6.sub_prices "S").getD []) "2024-01-01T00:00:00Z" = q.2) :=
  claim_C6 envC6 "S" [("2020-01-01", 100)] "2024-01-01T00:00:00Z" (by decide)

theorem tier1_foldl (lines : List TariffLine) :
    ∀ (b : Bool) (es : List ConsErr),
      lines.foldl tier1Step (b, es)
        = (b && lines.all (fun t => ! (decide (t.hourlyDetail ≠ []) &&
              decide (|t.amountDkk - hdSumOf t| > 1/100))),
           es ++ lines.filterMap (fun t =>
             if t.hourlyDetail ≠ [] ∧ |t.amountDkk - hdSumOf t| > 1/100 then
               some ⟨t.partyChargeTypeId, t.amountDkk, hdSumOf t, |t.amountDkk - hdSumOf t|⟩
             else none)) := by
  induction lines with
  | nil => intro b es; simp
  | cons t rest ih =>
    intro b es
    rw [List.foldl_cons, List.all_cons, List.filterMap_cons]
    by_cases h1 : t.hourlyDetail ≠ []
    · by_cases h2 : |t.amountDkk - hdSumOf t| > 1/100
      · rw [show tier1Step (b, es) t
            = (false, es ++ [⟨t.partyChargeTypeId, t.amountDkk, hdSumOf t,
                |t.amountDkk - hdSumOf t|⟩]) from by
              simp only [tier1Step]; rw [if_pos h1, if_pos h2], ih]
        rw [decide_eq_true h1, decide_eq_true h2, if_pos ⟨h1, h2⟩]
        simp
      · rw [show tier1Step (b, es) t = (b, es) from by
              simp only [tier1Step]; rw [if_pos h1, if_neg h2], ih]
        rw [decide_eq_true h1, decide_eq_false h2, if_neg (fun hc => h2 hc.2)]
        simp
    · rw [show tier1Step (b, es) t = (b, es) from by
          simp only [tier1Step]; rw [if_neg h1], ih]
      rw [decide_eq_false h1, if_neg (fun hc => h1 hc.1)]
      simp

/-- Claim C7: Tier-1 records a consistency issue for a line iff it has
hourly detail and `|line.amount − Σ detail.amount| > 0.01`; every line is
checked (the recorded violations are exactly the filter of all lines), and
`consistency_ok` holds iff no line with detail is over tolerance. -/
theorem claim_C7 (lines : List TariffLine) :
    (tier1 lines).2 = lines.filterMap (fun t =>
        if t.hourlyDetail ≠ [] ∧ |t.amountDkk - hdSumOf t| > 1/100 then
          some ⟨t.partyChargeTypeId, t.amountDkk, hdSumOf t, |t.amountDkk - hdSumOf t|⟩
        else none)
    ∧ ((tier1 lines).1 = true ↔
        ∀ t ∈ lines, t.hourlyDetail ≠ [] → |t.amountDkk - hdSumOf t| ≤ 1/100) := by
  rw [tier1, tier1_foldl lines true []]
  constructor
  · simp
  · simp only [Bool.true_and, List.all_eq_true, Bool.not_eq_true', Bool.and_eq_false_iff,
      decide_eq_false_iff_not, not_not, not_lt]
    constructor
    · intro h t ht hne
      rcases h t ht with h' | h'
      · exact absurd h' hne
      · exact h'
    · intro h t ht
      by_cases hne : t.hourlyDetail ≠ []
      · exact Or.inr (h t ht hne)
      · exact Or.inl (not_ne_iff.mp hne)

theorem T2_mk_matched (a b c : Nat) (e : List ObsErr) : (T2.mk a b c e).matched = a := rfl

theorem T2_mk_mismatched (a b c : Nat) (e : List ObsErr) : (T2.mk a b c e).mismatched = b := rfl

theorem T2_mk_missing (a b c : Nat) (e : List ObsErr) : (T2.mk a b c e).missing = c := rfl

theorem tier2_foldl (pobs : List (String × Rat)) (details : List HourlyDetail) :
    ∀ acc : T2,
      (details.foldl (tier2Step pobs) acc).matched
        = acc.matched + details.countP (fun h =>
            match dget pobs (normTs h.timestamp) with
            | some k => decide (|h.kwh - k| < 5/1000)
            | none => false)
      ∧ (details.foldl (tier2Step pobs) acc).mismatched
        = acc.mismatched + details.countP (fun h =>
            match dget pobs (normTs h.timestamp) with
            | some k => decide (¬ |h.kwh - k| < 5/1000)
            | none => false)
      ∧ (details.foldl (tier2Step pobs) acc).missing
        = acc.missing + details.countP (fun h => (dget pobs (normTs h.timestamp)).isNone) := by
  induction details with
  | nil => intro acc; simp
  | cons h rest ih =>
    intro acc
    rcases hk : dget pobs (normTs h.timestamp) with _ | k
    · rw [List.foldl_cons, List.countP_cons, List.countP_cons, List.countP_cons]
      have e1 : (match dget pobs (normTs h.timestamp) with
          | some k => decide (|h.kwh - k| < 5/1000) | none => false) = false := by
        rw [hk]
      have e2 : (match dget pobs (normTs h.timestamp) with
          | some k => decide (¬ |h.kwh - k| < 5/1000) | none => false) = false := by
        rw [hk]
      have e3 : (dget pobs (normTs h.timestamp)).isNone = true := by rw [hk]; rfl
      rw [show tier2Step pobs acc h = { acc with missing := acc.missing + 1 } from by
        simp only [tier2Step]; rw [hk]]
      rcases ih { acc with missing := acc.missing + 1 } with ⟨i1, i2, i3⟩
      refine ⟨?_, ?_, ?_⟩ <;>
        simp only [i1, i2, i3, e1, e2, e3, T2_mk_matched, T2_mk_mismatched, T2_mk_missing,
          Bool.false_eq_true, if_false, eq_self_iff_true, if_true] <;>
        omega
    · by_cases htol : |h.kwh - k| < 5/1000
      · rw [List.foldl_cons, List.countP_cons, List.countP_cons, List.countP_cons]
        have e1 : (match dget pobs (normTs h.timestamp) with
            | some k => decide (|h.kwh - k| < 5/1000) | none => false) = true := by
          rw [hk]; exact decide_eq_true htol
        have e2 : (match dget pobs (normTs h.timestamp) with
            | some k => decide (¬ |h.kwh - k| < 5/1000) | none => false) = false := by
          rw [hk]; exact decide_eq_false (not_not_intro htol)
        have e3 : (dget pobs (normTs h.timestamp)).isNone = false := by rw [hk]; rfl
        rw [show tier2Step pobs acc h = { acc with matched := acc.matched + 1 } from by
          simp only [tier2Step]; rw [hk]; simp only [if_pos htol]]
        rcases ih { acc with matched := acc.matched + 1 } with ⟨i1, i2, i3⟩
        refine ⟨?_, ?_, ?_⟩ <;>
          simp only [i1, i2, i3, e1, e2, e3, T2_mk_matched, T2_mk_mismatched, T2_mk_missing,
            Bool.false_eq_true, if_false, eq_self_iff_true, if_true] <;>
          omega
      · rw [List.foldl_cons, List.countP_cons, List.countP_cons, List.countP_cons]
        have e1 : (match dget pobs (normTs h.timestamp) with
            | some k => decide (|h.kwh - k| < 5/1000) | none => false) = false := by
          rw [hk]; exact decide_eq_false htol
        have e2 : (match dget pobs (normTs h.timestamp) with
            | some k => decide (¬ |h.kwh - k| < 5/1000) | none => false) = true := by
          rw [hk]; exact decide_eq_true htol
        have e3 : (dget pobs (normTs h.timestamp)).isNone = false := by rw [hk]; rfl
        rw [show tier2Step pobs acc h = { acc with
            mismatched := acc.mismatched + 1
            errors := (if acc.errors.length < 3 then
                acc.errors ++ [⟨normTs h.timestamp, h.kwh, k⟩] else acc.errors) } from by
          simp only [tier2Step]; rw [hk]; simp only [if_neg htol]]
        rcases ih { acc with
            mismatched := acc.mismatched + 1
            errors := (if acc.errors.length < 3 then
                acc.errors ++ [⟨normTs h.timestamp, h.kwh, k⟩] else acc.errors) } with ⟨i1, i2, i3⟩
        refine ⟨?_, ?_, ?_⟩ <;>
          simp only [i1, i2, i3, e1, e2, e3, T2_mk_matched, T2_mk_mismatched, T2_mk_missing,
            Bool.false_eq_true, if_false, eq_self_iff_true, if_true] <;>
          omega

theorem T2_mk_errors (a b c : Nat) (e : List ObsErr) : (T2.mk a b c e).errors = e := rfl

theorem tier2_foldl_errlen (pobs : List (String × Rat)) (details : List HourlyDetail) :
    ∀ acc : T2, acc.errors.length ≤ 3 →
      (details.foldl (tier2Step pobs) acc).errors.length ≤ 3 := by
  induction details with
  | nil => exact fun acc h => h
  | cons h rest ih =>
    intro acc hacc
    rw [List.foldl_cons]
    refine ih _ ?_
    simp only [tier2Step]
    rcases dget pobs (normTs h.timestamp) with _ | k
    · exact hacc
    · by_cases htol : |h.kwh - k| < 5/1000
      · simp only [if_pos htol, T2_mk_errors]
        exact hacc
      · simp only [if_neg htol, T2_mk_errors]
        by_cases hlen : acc.errors.length < 3
        · simp only [if_pos hlen, List.length_append, List.length_cons, List.length_nil]
          omega
        · simp only [if_neg hlen]
          exact hacc

theorem mem_issuesOf_obs (env : Env) (s : Settlement) :
    "obs" ∈ issuesOf env s ↔ 2 < (tier2 env s).mismatched := by
  unfold issuesOf
  rcases marginDiff env s with _ | d <;> split_ifs <;> simp_all

theorem issuesOf_empty_iff (env : Env) (s : Settlement) :
    issuesOf env s = [] ↔
      ((tier1 s.tariffLines).1 = true ∧ (tier2 env s).mismatched ≤ 2
        ∧ (∀ d, marginDiff env s = some d → |d| ≤ 1) ∧ addonDiffs env s = []) := by
  unfold issuesOf
  rcases hmd : marginDiff env s with _ | d <;> split_ifs <;>
    simp_all [List.isEmpty_iff, not_lt]

theorem statusOf_passed_iff (env : Env) (s : Settlement) (h : hasObs env s = true) :
    statusOf env s = "passed" ↔ issuesOf env s = [] := by
  unfold statusOf okOf
  rw [h]
  by_cases he : (issuesOf env s).isEmpty
  · simp [he, List.isEmpty_iff.mp he]
  · have : ¬ issuesOf env s = [] := fun hh => he (by simp [hh])
    simp [he, this]

/-- Claim C8: Tier-2, on the first non-subscription tariff line with hourly
detail, counts a detail hour as matched iff an in-period observation exists
within 0.005 kWh, as mismatched iff one exists but is off by at least
0.005 kWh, as missing iff none exists; at most 3 examples are recorded; and
the observation issue is raised iff the mismatch count exceeds 2. -/
theorem claim_C8 (env : Env) (s : Settlement) (t : TariffLine)
    (hobs : hasObs env s = true)
    (hfind : s.tariffLines.find? (fun t => !t.hourlyDetail.isEmpty && !t.isSubscription)
      = some t) :
    (tier2 env s).matched = t.hourlyDetail.countP (fun h =>
        match dget (periodObs env s) (normTs h.timestamp) with
        | some k => decide (|h.kwh - k| < 5/1000)
        | none => false)
    ∧ (tier2 env s).mismatched = t.hourlyDetail.countP (fun h =>
        match dget (periodObs env s) (normTs h.timestamp) with
        | some k => decide (¬ |h.kwh - k| < 5/1000)
        | none => false)
    ∧ (tier2 env s).missing = t.hourlyDetail.countP (fun h =>
        (dget (periodObs env s) (normTs h.timestamp)).isNone)
    ∧ (tier2 env s).errors.length ≤ 3
    ∧ ("obs" ∈ issuesOf env s ↔ 2 < (tier2 env s).mismatched) := by
  have ht2 : tier2 env s = t.hourlyDetail.foldl (tier2Step (periodObs env s)) ⟨0, 0, 0, []⟩ := by
    rw [tier2, if_pos hobs, hfind]
  rcases tier2_foldl (periodObs env s) t.hourlyDetail ⟨0, 0, 0, []⟩ with ⟨i1, i2, i3⟩
  refine ⟨?_, ?_, ?_, ?_, mem_issuesOf_obs env s⟩
  · rw [ht2, i1, T2_mk_matched, Nat.zero_add]
  · rw [ht2, i2, T2_mk_mismatched, Nat.zero_add]
  · rw [ht2, i3, T2_mk_missing, Nat.zero_add]
  · rw [ht2]
    exact tier2_foldl_errlen _ _ _ (by simp)

theorem spot_foldl (lookup : List (String × Rat)) (l : List (String × Rat)) :
    ∀ (a : Rat) (n : Nat),
      l.foldl (spotStep lookup) (a, n)
      = (a + (l.map (fun q => match dget lookup q.1 with
            | some sp => q.2 * sp | none => (0:Rat))).sum,
         n + l.countP (fun q => (dget lookup q.1).isNone)) := by
  induction l with
  | nil => intro a n; simp
  | cons q rest ih =>
    intro a n
    rw [List.foldl_cons, List.map_cons, List.sum_cons, List.countP_cons]
    rcases hq : dget lookup q.1 with _ | sp
    · rw [show spotStep lookup (a, n) q = (a, n + 1) from by
        simp only [spotStep]; rw [hq], ih]
      rw [Prod.mk.injEq]
      refine ⟨by simp <;> ring, by simp <;> omega⟩
    · rw [show spotStep lookup (a, n) q = (a + q.2 * sp, n) from by
        simp only [spotStep]; rw [hq], ih]
      rw [Prod.mk.injEq]
      refine ⟨by simp <;> ring, by simp <;> omega⟩

theorem dget_buildSpotLookup_none_iff (prices : List SpotEntry) (t : String) :
    dget (buildSpotLookup prices) t = none
      ↔ ∀ e ∈ prices, normTs e.hourUtc = t → e.spotPriceDkk = none := by
  induction prices with
  | nil => simp [buildSpotLookup, dget]
  | cons e rest ih =>
    rcases hp : e.spotPriceDkk with _ | v
    · rw [show buildSpotLookup (e :: rest) = buildSpotLookup rest from by
        simp only [buildSpotLookup, List.filterMap_cons]; rw [hp]]
      rw [ih]
      constructor
      · rintro h f hf hft
        rcases List.mem_cons.mp hf with rfl | hfr
        · exact hp
        · exact h f hfr hft
      · intro h f hf hft
        exact h f (List.mem_cons.mpr (Or.inr hf)) hft
    · rw [show buildSpotLookup (e :: rest)
          = (normTs e.hourUtc, v / 1000) :: buildSpotLookup rest from by
        simp only [buildSpotLookup, List.filterMap_cons]; rw [hp]]
      simp only [dget]
      rcases hrest : dget (buildSpotLookup rest) t with _ | w
      · have hP := ih.mp hrest
        constructor
        · intro h f hf hft
          rcases List.mem_cons.mp hf with rfl | hfr
          · by_cases hc : normTs f.hourUtc = t
            · rw [if_pos hc] at h; cases h
            · exact absurd hft hc
          · exact hP f hfr hft
        · intro h
          have hne : ¬ normTs e.hourUtc = t := fun hc => by
            have := h e (by simp) hc
            rw [this] at hp
            cases hp
          rw [if_neg hne]
      · constructor
        · intro h; cases h
        · intro h
          have : dget (buildSpotLookup rest) t = none :=
            ih.mpr (fun f hf hft => h f (List.mem_cons.mpr (Or.inr hf)) hft)
          rw [this] at hrest
          cases hrest

theorem dget_buildSpotLookup_some (prices : List SpotEntry) (t : String) (sp : Rat)
    (h : dget (buildSpotLookup prices) t = some sp) :
    ∃ e ∈ prices, ∃ pv, e.spotPriceDkk = some pv ∧ sp = pv / 1000 ∧ t = normTs e.hourUtc := by
  induction prices with
  | nil => cases h
  | cons e rest ih =>
    rcases hp : e.spotPriceDkk with _ | v
    · rw [show buildSpotLookup (e :: rest) = buildSpotLookup rest from by
        simp only [buildSpotLookup, List.filterMap_cons]; rw [hp]] at h
      rcases ih h with ⟨f, hf, pv, h1, h2, h3⟩
      exact ⟨f, List.mem_cons.mpr (Or.inr hf), pv, h1, h2, h3⟩
    · rw [show buildSpotLookup (e :: rest)
          = (normTs e.hourUtc, v / 1000) :: buildSpotLookup rest from by
        simp only [buildSpotLookup, List.filterMap_cons]; rw [hp]] at h
      simp only [dget] at h
      rcases hrest : dget (buildSpotLookup rest) t with _ | w
      · rw [hrest] at h
        by_cases hc : normTs e.hourUtc = t
        · rw [if_pos hc] at h
          exact ⟨e, by simp, v, hp, by injection h with h'; rw [h'], hc.symm⟩
        · rw [if_neg hc] at h; cases h
      · rw [hrest] at h
        injection h with h'
        rcases ih (h' ▸ hrest) with ⟨f, hf, pv, h1, h2, h3⟩
        exact ⟨f, List.mem_cons.mpr (Or.inr hf), pv, h1, h2, h3⟩

theorem spotScan_eq (env : Env) (s : Settlement) :
    spotScan env s
      = (((periodObs env s).map (fun q => match dget env.spot_lookup q.1 with
            | some sp => q.2 * sp | none => (0:Rat))).sum,
         (periodObs env s).countP (fun q => (dget env.spot_lookup q.1).isNone)) := by
  rw [spotScan, spot_foldl]
  simp

theorem spotCalc_some {env : Env} {s : Settlement} {p : Rat × Nat}
    (h : spotCalc env s = some p) : p = spotScan env s := by
  unfold spotCalc at h
  by_cases hc : (hasObs env s && (modelOf env s == "SpotAddon")) = true
  · rw [if_pos hc] at h
    injection h with h'
    exact h'.symm
  · rw [if_neg hc] at h
    cases h

theorem countP_congr' {α : Type} (l : List α) (p q : α → Bool)
    (h : ∀ a ∈ l, p a = q a) : l.countP p = l.countP q := by
  induction l with
  | nil => rfl
  | cons a rest ih =>
    rw [List.countP_cons, List.countP_cons, h a (by simp),
      ih (fun x hx => h x (by simp [hx]))]

/-- Claim C9: spot cost is recomputed exactly when observations exist and
the primary product's pricing model is `SpotAddon`; the recomputed value is
the sum over in-period observation hours of `kwh × spot price` (hours without
a spot price contribute nothing and are counted as missing); and every price
in the spot index is a cache price divided by 1000, keyed by normalized
hour. -/
theorem claim_C9 :
    (∀ (env : Env) (s : Settlement),
      (recalcSpot env s).isSome = (hasObs env s && (modelOf env s == "SpotAddon")))
    ∧ (∀ (env : Env) (s : Settlement) (v : Rat), recalcSpot env s = some v →
        v = ((periodObs env s).map (fun q => match dget env.spot_lookup q.1 with
              | some sp => q.2 * sp | none => (0:Rat))).sum
        ∧ spotMissingR env s
            = some ((periodObs env s).countP (fun q => (dget env.spot_lookup q.1).isNone)))
    ∧ (∀ (prices : List SpotEntry) (t : String) (sp : Rat),
        dget (buildSpotLookup prices) t = some sp →
        ∃ e ∈ prices, ∃ pv, e.spotPriceDkk = some pv ∧ sp = pv / 1000
          ∧ t = normTs e.hourUtc) := by
  refine ⟨?_, ?_, dget_buildSpotLookup_some⟩
  · intro env s
    unfold recalcSpot spotCalc
    by_cases hc : (hasObs env s && (modelOf env s == "SpotAddon")) = true
    · rw [if_pos hc, hc]
      rfl
    · rw [if_neg hc]
      simp only [Bool.not_eq_true] at hc
      rw [hc]
      rfl
  · intro env s v hv
    unfold recalcSpot at hv
    rcases hsc : spotCalc env s with _ | p
    · rw [hsc] at hv; cases hv
    · rw [hsc] at hv
      injection hv with hv'
      have hp := spotCalc_some hsc
      have hscan := spotScan_eq env s
      constructor
      · rw [← hv', hp, hscan]
      · unfold spotMissingR
        rw [hsc, hp, hscan]
        rfl

/-- Claim C10: a spot cache entry with a null price is omitted from the spot
index — the lookup of an hour is `none` iff every cache entry for that hour
has a null price — so such observation hours are counted among the missing
spot hours of the recomputation rather than contributing a zero price. -/
theorem claim_C10 :
    (∀ (prices : List SpotEntry) (t : String),
      dget (buildSpotLookup prices) t = none
        ↔ ∀ e ∈ prices, normTs e.hourUtc = t → e.spotPriceDkk = none)
    ∧ (∀ (prices : List SpotEntry) (env : Env) (s : Settlement) (m : Nat),
        env.spot_lookup = buildSpotLookup prices → spotMissingR env s = some m →
        m = (periodObs env s).countP (fun q =>
          decide (∀ e ∈ prices, normTs e.hourUtc = q.1 → e.spotPriceDkk = none))) := by
  refine ⟨dget_buildSpotLookup_none_iff, ?_⟩
  intro prices env s m henv hm
  unfold spotMissingR at hm
  rcases hsc : spotCalc env s with _ | p
  · rw [hsc] at hm; cases hm
  · rw [hsc] at hm
    injection hm with hm'
    have hp := spotCalc_some hsc
    have hscan := spotScan_eq env s
    rw [← hm', hp, hscan]
    refine countP_congr' _ _ _ (fun q hq => ?_)
    rw [henv]
    rcases hd : dget (buildSpotLookup prices) q.1 with _ | w
    · exact (decide_eq_true ((dget_buildSpotLookup_none_iff prices q.1).mp hd)).symm
    · refine ((decide_eq_false (fun hall => ?_)).symm)
      rw [(dget_buildSpotLookup_none_iff prices q.1).mpr hall] at hd
      cases hd

theorem replaceAllAux_nil (n : Nat) (pat repl : List Char) :
    replaceAllAux n pat repl [] = [] := by
  cases n <;> rfl

theorem replaceAllAux_no_occ (p : Char) (pt repl : List Char) :
    ∀ (s : List Char) (n : Nat), (∀ c ∈ s, c ≠ p) →
      replaceAllAux n (p :: pt) repl s = s := by
  intro s
  induction s with
  | nil => intro n _; exact replaceAllAux_nil n _ _
  | cons c rest ih =>
    intro n h
    cases n with
    | zero => rfl
    | succ m =>
      have hc : ¬ (p == c) = true := by
        simp only [beq_iff_eq]
        exact fun hh => (h c (by simp)) hh.symm
      rw [replaceAllAux, List.isPrefixOf, if_neg (by simp [hc]),
        ih m (fun x hx => h x (by simp [hx]))]

theorem replaceAllAux_append_pat (p : Char) (pt repl : List Char) :
    ∀ (b : List Char) (n : Nat), (∀ c ∈ b, c ≠ p) → (b ++ (p :: pt)).length ≤ n →
      replaceAllAux n (p :: pt) repl (b ++ (p :: pt)) = b ++ repl := by
  intro b
  induction b with
  | nil =>
    intro n _ hn
    simp only [List.nil_append, List.length_cons] at hn ⊢
    cases n with
    | zero => omega
    | succ m =>
      rw [replaceAllAux, if_pos (List.isPrefixOf_iff_prefix.mpr (List.prefix_refl _)),
        show List.drop (p :: pt).length (p :: pt) = [] from List.drop_length _,
        replaceAllAux_nil, List.append_nil]
  | cons c b' ih =>
    intro n h hn
    cases n with
    | zero => simp at hn
    | succ m =>
      have hc : ¬ (p == c) = true := by
        simp only [beq_iff_eq]
        exact fun hh => (h c (by simp)) hh.symm
      rw [List.cons_append, replaceAllAux, List.isPrefixOf, if_neg (by simp [hc]),
        ih m (fun x hx => h x (by simp [hx])) (by simp at hn ⊢; omega)]
      rfl

theorem replaceAll_no_occ (p : Char) (pt repl s : List Char) (h : ∀ c ∈ s, c ≠ p) :
    replaceAll (p :: pt) repl s = s :=
  replaceAllAux_no_occ p pt repl s s.length h

theorem replaceAll_append_pat (p : Char) (pt repl b : List Char) (h : ∀ c ∈ b, c ≠ p) :
    replaceAll (p :: pt) repl (b ++ (p :: pt)) = b ++ repl :=
  replaceAllAux_append_pat p pt repl b (b ++ (p :: pt)).length h (le_refl _)

theorem normTs_appendZ (b : List Char) (hp : '+' ∉ b) (hz : 'Z' ∉ b) :
    normTs ⟨b ++ ['Z']⟩ = ⟨b⟩ := by
  rw [normTs]
  rw [show ("+00:00".data) = '+' :: "00:00".data from rfl,
    replaceAll_no_occ '+' _ _ _ (by
      intro c hc
      rcases List.mem_append.mp hc with hcb | hcz
      · exact fun hh => hp (hh ▸ hcb)
      · intro hh
        rw [hh] at hcz
        simp at hcz),
    show ("Z".data) = 'Z' :: [] from rfl,
    show b ++ ['Z'] = b ++ ('Z' :: []) from rfl,
    replaceAll_append_pat 'Z' [] [] b (fun c hc hh => hz (hh ▸ hc)),
    List.append_nil]

theorem normTs_appendPlus (b : List Char) (hp : '+' ∉ b) (hz : 'Z' ∉ b) :
    normTs ⟨b ++ "+00:00".data⟩ = ⟨b⟩ := by
  rw [normTs]
  rw [show ("+00:00".data) = '+' :: "00:00".data from rfl,
    show b ++ '+' :: "00:00".data = b ++ ('+' :: "00:00".data) from rfl,
    replaceAll_append_pat '+' _ [] b (fun c hc hh => hp (hh ▸ hc)),
    List.append_nil,
    show ("Z".data) = 'Z' :: [] from rfl,
    replaceAll_no_occ 'Z' [] [] b (fun c hc hh => hz (hh ▸ hc))]

/-- Counterexample to C3 as stated: "2024-01-01T01:00:00+01:00" and
"2024-01-01T00:00:00Z" are both accepted by the parser and denote the same
UTC instant, yet normalize to different lookup keys. -/
theorem claim_C3_counterexample :
    parse_ts "2024-01-01T01:00:00+01:00" = some ⟨2024, 1, 1, 1, 0, 0, 60⟩
    ∧ parse_ts "2024-01-01T00:00:00Z" = some ⟨2024, 1, 1, 0, 0, 0, 0⟩
    ∧ utcSeconds ⟨2024, 1, 1, 1, 0, 0, 60⟩ = utcSeconds ⟨2024, 1, 1, 0, 0, 0, 0⟩
    ∧ normTs "2024-01-01T01:00:00+01:00" ≠ normTs "2024-01-01T00:00:00Z" := by
  refine ⟨by decide, by decide, by decide, by decide⟩

/-- Claim C3 (amended): the temporal normalizer maps the 'Z' form and the
explicit "+00:00" form of the same wall-clock timestamp to the identical
lookup key.  (The original claim covered every explicit-offset form; a
non-zero offset denoting the same UTC instant produces a different key, see
`claim_C3_counterexample`.) -/
theorem claim_C3 (b : List Char) (hp : '+' ∉ b) (hz : 'Z' ∉ b) :
    normTs ⟨b ++ ['Z']⟩ = normTs ⟨b ++ "+00:00".data⟩ := by
  rw [normTs_appendZ b hp hz, normTs_appendPlus b hp hz]

/-- Witness for C3: the amended claim at the concrete base
"2024-01-01T00:00:00". -/
theorem claim_C3_witness :
    normTs ⟨"2024-01-01T00:00:00".data ++ ['Z']⟩
      = normTs ⟨"2024-01-01T00:00:00".data ++ "+00:00".data⟩ :=
  claim_C3 "2024-01-01T00:00:00".data (by decide) (by decide)

/-- Claim C1 (amended): a settlement with zero in-period observations undergoes
no Tier-2 observation matching (all counters zero, no recorded examples) and no
spot recomputation, and its reported status is "skipped" — never "passed" or
"failed".  (The original claim also asserted that no margin, addon or
subscription recomputation happens; the code does recompute those from the
settlement's stored total energy, see `claim_C1_counterexample`.) -/
theorem claim_C1 (env : Env) (s : Settlement) (h : hasObs env s = false) :
    tier2 env s = ⟨0, 0, 0, []⟩ ∧ recalcSpot env s = none ∧ spotMissingR env s = none
    ∧ statusOf env s = "skipped" := by
  refine ⟨?_, ?_, ?_, ?_⟩
  · rw [tier2, if_neg (by simp [h])]
  · unfold recalcSpot spotCalc
    rw [h]
    rfl
  · unfold spotMissingR spotCalc
    rw [h]
    rfl
  · unfold statusOf
    rw [h]
    rfl

/-- Witness for C1: a concrete environment and settlement with zero in-period
observations, evaluated through `claim_C1`. -/
theorem claim_C1_witness :
    tier2 env0 s0 = ⟨0, 0, 0, []⟩ ∧ recalcSpot env0 s0 = none ∧ spotMissingR env0 s0 = none
    ∧ statusOf env0 s0 = "skipped" :=
  claim_C1 env0 s0 (by decide)

/-- Counterexample to C1 as stated: a settlement with zero in-period
observations for which the validator STILL recomputes the margin
(`recalc_margin = total_kwh * rate = 100`), refuting "no margin
recomputation"; the status is nevertheless "skipped". -/
theorem claim_C1_counterexample :
    hasObs env0 s0 = false ∧ recalcMargin env0 s0 = some 100
    ∧ statusOf env0 s0 = "skipped" := by
  refine ⟨by decide, ?_, ?_⟩
  · unfold recalcMargin
    rw [show primaryProd env0 s0 = some ⟨"P", "Margin", [⟨"2020-01-01", none, 1⟩]⟩ from by decide]
    rw [show hasObs env0 s0 = false from by decide]
    dsimp only
    rw [show margin_rate_at ⟨"P", "Margin", [⟨"2020-01-01", none, 1⟩]⟩ s0.periodStart = 1 from by
      decide]
    norm_num [s0]
  · unfold statusOf
    rw [show hasObs env0 s0 = false from by decide]
    rfl

/-- Claim C2 (amended): for a settlement with in-period observations, the
status is "passed" iff the issue set is empty, and the issue set is empty iff
there is no Tier-1 consistency failure, the observation mismatch count is at
most 2, any margin delta has absolute value at most 1.0, and there is no addon
delta over threshold.  (The original claim also put subscription mismatches in
the issue set; the code records them in `sub_diffs` but never consults them
for pass/fail, see `claim_C2_counterexample`.) -/
theorem claim_C2 (env : Env) (s : Settlement) (h : hasObs env s = true) :
    (statusOf env s = "passed" ↔ issuesOf env s = [])
    ∧ (issuesOf env s = []
        ↔ ((tier1 s.tariffLines).1 = true ∧ (tier2 env s).mismatched ≤ 2
          ∧ (∀ d, marginDiff env s = some d → |d| ≤ 1) ∧ addonDiffs env s = [])) :=
  ⟨statusOf_passed_iff env s h, issuesOf_empty_iff env s⟩

/-- Witness for C2: the characterization evaluated at a concrete settlement
with observations. -/
theorem claim_C2_witness :
    (statusOf env1 s1 = "passed" ↔ issuesOf env1 s1 = [])
    ∧ (issuesOf env1 s1 = []
        ↔ ((tier1 s1.tariffLines).1 = true ∧ (tier2 env1 s1).mismatched ≤ 2
          ∧ (∀ d, marginDiff env1 s1 = some d → |d| ≤ 1) ∧ addonDiffs env1 s1 = [])) :=
  claim_C2 env1 s1 (by decide)

/-- Counterexample to C2 as stated: a settlement with in-period observations
and a recorded subscription mismatch (`sub_diffs ≠ []`) whose status is
nevertheless "passed" — the subscription mismatch is not part of the issue
set. -/
theorem claim_C2_counterexample :
    hasObs env1 s1 = true
    ∧ subDiffs env1 s1 = [⟨"SUB1", 50, 100⟩]
    ∧ statusOf env1 s1 = "passed" := by
  have hsub : subDiffs env1 s1 = [⟨"SUB1", 50, 100⟩] := by
    have hd : daysOf s1 = 31 := by
      rw [daysOf, show ((((parse_ts s1.periodEnd).map utcSeconds).getD 0
        - (((parse_ts s1.periodStart).map utcSeconds).getD 0) : Int)) = 2678400 from by decide]
      norm_num
    have h1 : dget env1.sub_prices "SUB1" = some [("2020-01-01", 100)] := by decide
    have h2 : sub_price_at [("2020-01-01", 100)] "2024-01-01T00:00:00Z" = 100 := by decide
    have h3 : ("PRODUCT:".isPrefixOf "SUB1") = false := by decide
    simp only [subDiffs,
      show s1.tariffLines = [⟨"TAR1", 1, false, [⟨"2024-01-05T00:00:00Z", 1, 1⟩]⟩,
        ⟨"SUB1", 50, true, []⟩] from rfl,
      show s1.periodStart = "2024-01-01T00:00:00Z" from rfl,
      List.filterMap_cons, Bool.false_and, Bool.true_and, h1, h3,
      Option.getD_some, h2, hd]
    norm_num [lt_abs, abs_lt]
  have hiss : issuesOf env1 s1 = [] := by
    have h1 : (tier1 s1.tariffLines).1 = true := by norm_num [tier1, tier1Step, hdSumOf, s1]
    have h2 : tier2 env1 s1 = ⟨1, 0, 0, []⟩ := by
      have a1 : hasObs env1 s1 = true := by decide
      have a2 : s1.tariffLines.find? (fun t => !t.hourlyDetail.isEmpty && !t.isSubscription)
          = some ⟨"TAR1", 1, false, [⟨"2024-01-05T00:00:00Z", 1, 1⟩]⟩ := by decide
      have a3 : dget (periodObs env1 s1) (normTs "2024-01-05T00:00:00Z") = some 1 := by decide
      rw [tier2, a1, if_pos rfl, a2]
      simp only [List.foldl, tier2Step, a3]
      norm_num
    have h3 : marginDiff env1 s1 = none := by decide
    have h4 : addonDiffs env1 s1 = [] := by decide
    rw [issuesOf, h1, h2, h3, h4]
    norm_num
  refine ⟨by decide, hsub, ?_⟩
  unfold statusOf okOf
  rw [show hasObs env1 s1 = true from by decide, hiss]
  rfl

/-- Witness for C7: the characterization at a two-line settlement with one
violation of 1.00 and one exact match. -/
theorem claim_C7_witness :
    (tier1 lines7).2 = lines7.filterMap (fun t =>
        if t.hourlyDetail ≠ [] ∧ |t.amountDkk - hdSumOf t| > 1/100 then
          some ⟨t.partyChargeTypeId, t.amountDkk, hdSumOf t, |t.amountDkk - hdSumOf t|⟩
        else none)
    ∧ ((tier1 lines7).1 = true ↔
        ∀ t ∈ lines7, t.hourlyDetail ≠ [] → |t.amountDkk - hdSumOf t| ≤ 1/100) :=
  claim_C7 lines7

/-- Witness for C8: the characterization at a concrete settlement whose one
detail hour matches its observation. -/
theorem claim_C8_witness :
    (tier2 env1 s1).matched
      = (TariffLine.hourlyDetail ⟨"TAR1", 1, false, [⟨"2024-01-05T00:00:00Z", 1, 1⟩]⟩).countP
          (fun h => match dget (periodObs env1 s1) (normTs h.timestamp) with
            | some k => decide (|h.kwh - k| < 5/1000)
            | none => false)
    ∧ (tier2 env1 s1).mismatched
      = (TariffLine.hourlyDetail ⟨"TAR1", 1, false, [⟨"2024-01-05T00:00:00Z", 1, 1⟩]⟩).countP
          (fun h => match dget (periodObs env1 s1) (normTs h.timestamp) with
            | some k => decide (¬ |h.kwh - k| < 5/1000)
            | none => false)
    ∧ (tier2 env1 s1).missing
      = (TariffLine.hourlyDetail ⟨"TAR1", 1, false, [⟨"2024-01-05T00:00:00Z", 1, 1⟩]⟩).countP
          (fun h => (dget (periodObs env1 s1) (normTs h.timestamp)).isNone)
    ∧ (tier2 env1 s1).errors.length ≤ 3
    ∧ ("obs" ∈ issuesOf env1 s1 ↔ 2 < (tier2 env1 s1).mismatched) :=
  claim_C8 env1 s1 ⟨"TAR1", 1, false, [⟨"2024-01-05T00:00:00Z", 1, 1⟩]⟩ (by decide) (by decide)

/-- Witness for C9: the spot characterization at a concrete `SpotAddon`
settlement with one priced hour and one unpriced hour. -/
theorem claim_C9_witness :
    ((0 + 2 * ((500:Rat) / 1000))
        = ((periodObs env9 s9).map (fun q => match dget env9.spot_lookup q.1 with
            | some sp => q.2 * sp | none => (0:Rat))).sum
      ∧ spotMissingR env9 s9
          = some ((periodObs env9 s9).countP (fun q => (dget env9.spot_lookup q.1).isNone)))
    ∧ (∃ e ∈ prices9, ∃ pv, e.spotPriceDkk = some pv ∧ (500:Rat)/1000 = pv / 1000
        ∧ "2024-01-01T05:00:00" = normTs e.hourUtc) :=
  ⟨claim_C9.2.1 env9 s9 _ rfl, claim_C9.2.2 prices9 "2024-01-01T05:00:00" ((500:Rat)/1000) rfl⟩

/-- Witness for C10: the missing-hour count at a concrete cache containing a
null-priced entry. -/
theorem claim_C10_witness :
    1 = (periodObs env9 s9).countP (fun q =>
        decide (∀ e ∈ prices9, normTs e.hourUtc = q.1 → e.spotPriceDkk = none)) :=
  claim_C10.2 prices9 env9 s9 1 rfl rfl
